import Mathlib

/-!
Shallow embedding of `lh_update_cache.py` (blancadesal/lazyhost).

The script maintains text-file caches of hostnames and a JSON cache mapping
primary-IP API URLs to DNS names.  We embed the pure logic of each function:
file contents are passed in explicitly, the network is a function from URL to
response, and Python exceptions become an `Except` error type.  A Python
`str` value used in a boolean position is falsy exactly when it is `None` or
the empty string, which we model with `truthyOpt` on `Option String`.
-/

namespace Lazyhost

/-- Python exceptions that the script can raise on the paths we model. -/
inductive PyErr : Type
  | fileNotFound
  | httpError
  | jsonDecodeError
  | keyError (k : String)
  | indexError
  deriving DecidableEq, Repr

/-- Truthiness of a Python `Optional[str]`: `None` and `""` are falsy. -/
def truthyOpt : Option String → Bool
  | none => false
  | some s => s != ""

/-- Lookup in an association list, first match wins; models `dict.get(k, None)`
on a decoded JSON object (whose keys are unique, as in any Python dict). -/
def alookup {β : Type} (d : List (String × β)) (k : String) : Option β :=
  (d.find? (fun p => p.1 == k)).map (fun p => p.2)

/-- The decoded contents of `fqdn.json`: a JSON object mapping
primary-IP URLs to DNS names, kept in insertion order like a Python dict. -/
abbrev CacheData := List (String × String)

/-- Python dict assignment `data[k] = v`: an existing key is updated in place
(insertion order kept), a new key is appended at the end. -/
def insertKV (d : CacheData) (k v : String) : CacheData :=
  if (d.find? (fun p => p.1 == k)).isSome then
    d.map (fun p => if p.1 == k then (p.1, v) else p)
  else d ++ [(k, v)]

/-- State of the cache file on disk: `none` means the file does not exist;
`some none` means it exists but `json.load` fails (`JSONDecodeError`);
`some (some d)` means it decodes to the object `d`. -/
abbrev CacheSt := Option (Option CacheData)

/-- A response of a primary-IP detail endpoint: an HTTP status
(`statusOk` = 2xx, checked by `raise_for_status`) and a body that is either
malformed JSON (`none`) or an object whose fields are strings or nulls. -/
structure IpResponse where
  statusOk : Bool
  body : Option (List (String × Option String))

/-- The `NetboxHost` dataclass.  `cachefile` records whether a cache file
path was configured (its truthiness is all the logic consults; a single
cache-file state is threaded through explicitly). -/
structure NetboxHost where
  name : String
  slug : String
  cachefile : Bool
  primary_ip_url : Option String
  dns_name : Option String
  deriving DecidableEq, Repr

/-- Method `_get_fqdn_from_cache` of `NetboxHost`: `open(self.cachefile, "r")`
raises `FileNotFoundError` on a missing file; a decode failure is treated as
the empty object; then `self.dns_name = data.get(self.primary_ip_url, None)`
(JSON object keys are strings, so a `None` key never matches). -/
def getFqdnFromCache (h : NetboxHost) (cache : CacheSt) : Except PyErr NetboxHost :=
  match cache with
  | none => .error .fileNotFound
  | some decoded =>
    let data := decoded.getD []
    let v := match h.primary_ip_url with
      | none => none
      | some u => alookup data u
    .ok { h with dns_name := v }

/-- Method `_write_fqdn_to_cache` of `NetboxHost`: `open(self.cachefile, "r+")`
raises `FileNotFoundError` on a missing file; a decode failure is treated as
the empty object; then `data[self.primary_ip_url] = self.dns_name` and the
whole object is dumped back (truncating).  The only call site
(`_get_fqdn_from_api`) guarantees both fields are non-empty strings, so the
`getD ""` defaults are never exercised there. -/
def writeFqdnToCache (h : NetboxHost) (cache : CacheSt) : Except PyErr CacheSt :=
  match cache with
  | none => .error .fileNotFound
  | some decoded =>
    let data := decoded.getD []
    .ok (some (some (insertKV data (h.primary_ip_url.getD "") (h.dns_name.getD ""))))

/-- Method `_get_fqdn_from_api` of `NetboxHost`: GET the primary-IP URL,
`raise_for_status`, parse JSON, read the `dns_name` field of the body
(KeyError when the field is absent); if the value is truthy, record it and,
if a cache file is configured, write it back.  The third component of the
result is the list of URLs requested over the network during the call. -/
def getFqdnFromApi (net : String → IpResponse) (h : NetboxHost) (cache : CacheSt) :
    Except PyErr (NetboxHost × CacheSt × List String) :=
  let u := h.primary_ip_url.getD ""
  let r := net u
  if r.statusOk = false then .error .httpError
  else match r.body with
    | none => .error .jsonDecodeError
    | some fields =>
      match alookup fields "dns_name" with
      | none => .error (.keyError "dns_name")
      | some dnsVal =>
        if truthyOpt dnsVal then
          let h2 := { h with dns_name := dnsVal }
          if h2.cachefile then
            match writeFqdnToCache h2 cache with
            | .error e => .error e
            | .ok c2 => .ok (h2, c2, [u])
          else .ok (h2, cache, [u])
        else .ok (h, cache, [u])

/-- Method `get_fqdn` of `NetboxHost`: a falsy `primary_ip_url` synthesizes
the name from the device name, the site slug and the literal suffix `wmnet`;
otherwise consult the cache when configured, and fall through to the API
when `dns_name` is still falsy. -/
def get_fqdn (net : String → IpResponse) (h : NetboxHost) (cache : CacheSt) :
    Except PyErr (NetboxHost × CacheSt × List String) :=
  if truthyOpt h.primary_ip_url = false then
    .ok ({ h with dns_name := some (h.name ++ "." ++ h.slug ++ ".wmnet") }, cache, [])
  else
    match (if h.cachefile then getFqdnFromCache h cache else .ok h) with
    | .error e => .error e
    | .ok h1 =>
      if truthyOpt h1.dns_name = false then getFqdnFromApi net h1 cache
      else .ok (h1, cache, [])

/-- The JSON body of one page of a paginated list endpoint: a `results`
array (records of type `α`) and a `next` field that is a URL or null. -/
structure PageBody (α : Type) where
  results : List α
  nextUrl : Option String
  deriving DecidableEq, Repr

/-- A response of the paginated list endpoint: an HTTP status and a body
that is either malformed JSON (`none`) or a pagination envelope.
`fetch_all_results` never consults the status. -/
structure PageResponse (α : Type) where
  statusOk : Bool
  body : Option (PageBody α)
  deriving DecidableEq, Repr

/-- Function `fetch_all_results`: while the URL is truthy, GET the page,
parse JSON, append the `results` array, follow the `next` URL.  `fuel`
bounds the number of loop iterations; `none` means the loop has not
terminated within `fuel` (the Python loop would still be running).  On
`some (trace, r)`, `trace` is the list of URLs requested over the network,
in order, and `r` the outcome.  Note the code never calls
`raise_for_status` here: the HTTP status is ignored. -/
def fetchAllResults {α : Type} (net : String → PageResponse α) :
    Nat → Option String → Option (List String × Except PyErr (List α))
  | 0, _ => none
  | fuel + 1, url =>
    if truthyOpt url = false then some ([], .ok [])
    else
      let u := url.getD ""
      match (net u).body with
      | none => some ([u], .error .jsonDecodeError)
      | some b =>
        match fetchAllResults net fuel b.nextUrl with
        | none => none
        | some (tr, .error e) => some (u :: tr, .error e)
        | some (tr, .ok rs) => some (u :: tr, .ok (b.results ++ rs))

/-- The `results` array of the page served at `v`, empty when the body is
malformed.  Used only to state what `fetch_all_results` accumulates. -/
def pageResults {α : Type} (net : String → PageResponse α) (v : String) : List α :=
  match (net v).body with
  | some b => b.results
  | none => []

/-- A terminating chain of pages: each listed URL is truthy, serves a
well-formed envelope, and links to the next listed URL; the last page's
`next` is null or empty. -/
inductive PageChain {α : Type} (net : String → PageResponse α) : String → List String → Prop
  | last (u : String) (b : PageBody α) :
      u ≠ "" → (net u).body = some b → truthyOpt b.nextUrl = false →
      PageChain net u [u]
  | cons (u u2 : String) (b : PageBody α) (us : List String) :
      u ≠ "" → (net u).body = some b → b.nextUrl = some u2 → u2 ≠ "" →
      PageChain net u2 us → PageChain net u (u :: us)

/-- A chain of pages ending at a page whose body is malformed JSON: all
pages before the last are well-formed and linked, and the last listed URL
serves a body that fails to parse. -/
inductive BadPageChain {α : Type} (net : String → PageResponse α) : String → List String → Prop
  | last (u : String) :
      u ≠ "" → (net u).body = none → BadPageChain net u [u]
  | cons (u u2 : String) (b : PageBody α) (us : List String) :
      u ≠ "" → (net u).body = some b → b.nextUrl = some u2 → u2 ≠ "" →
      BadPageChain net u2 us → BadPageChain net u (u :: us)

/-- One NetBox device record as consumed by `get_netbox_hosts`: the record's
name, its site slug, and its primary-IP reference (null, modeled `none`, or
an object whose `url` field we keep). -/
structure NBRecord where
  name : String
  slug : String
  primary_ip : Option String
  deriving DecidableEq, Repr

/-- The body of the loop of `get_netbox_hosts` for one record: construct the
`NetboxHost`, set `primary_ip_url` when the record's primary-IP is truthy,
run `get_fqdn`, and emit the device's `dns_name` when truthy. -/
def processDevice (net : String → IpResponse) (cachefile : Bool) (r : NBRecord)
    (cache : CacheSt) : Except PyErr (Option String × CacheSt) :=
  let device : NetboxHost :=
    { name := r.name, slug := r.slug, cachefile := cachefile,
      primary_ip_url := r.primary_ip, dns_name := none }
  match get_fqdn net device cache with
  | .error e => .error e
  | .ok (d, c2, _) =>
    .ok (if truthyOpt d.dns_name then (d.dns_name, c2) else (none, c2))

/-- The loop of `get_netbox_hosts` over the fetched records, threading the
cache-file state and collecting the lines appended to `hosts`. -/
def getNetboxHostsLoop (net : String → IpResponse) (cachefile : Bool) :
    List NBRecord → CacheSt → Except PyErr (List String × CacheSt)
  | [], c => .ok ([], c)
  | r :: rs, c =>
    match processDevice net cachefile r c with
    | .error e => .error e
    | .ok (line, c2) =>
      match getNetboxHostsLoop net cachefile rs c2 with
      | .error e => .error e
      | .ok (hosts, c3) => .ok (line.toList ++ hosts, c3)

/-- Function `get_netbox_hosts`: fetch all records from the paginated
endpoint, run the per-device loop, and join the collected names with
newlines. -/
def get_netbox_hosts (pagesNet : String → PageResponse NBRecord)
    (ipNet : String → IpResponse) (fuel : Nat) (url : Option String)
    (cachefile : Bool) (cache : CacheSt) :
    Option (Except PyErr (String × CacheSt)) :=
  match fetchAllResults pagesNet fuel url with
  | none => none
  | some (_, .error e) => some (.error e)
  | some (_, .ok rs) =>
    match getNetboxHostsLoop ipNet cachefile rs cache with
    | .error e => some (.error e)
    | .ok (hosts, c2) => some (.ok (String.intercalate "\n" hosts, c2))

/-- Split a character list at every newline (the pieces, in order, with the
separators removed); the result is never empty. -/
def splitNl : List Char → List (List Char)
  | [] => [[]]
  | c :: cs =>
    match splitNl cs with
    | [] => [[]]
    | l :: ls => if c = '\n' then [] :: l :: ls else (c :: l) :: ls

/-- Python `str.splitlines` restricted to newline-separated text (the cache
files are written with newline joins): splits on the newline character and
does not return a final empty string for a trailing newline; the empty
string has no lines. -/
def splitlines (s : String) : List String :=
  if s = "" then []
  else
    let parts := (splitNl s.data).map String.mk
    if parts.getLast? = some "" then parts.dropLast else parts

/-- Lexicographic order on lists of characters, comparing code points, as
Python compares strings. -/
def lexLe : List Char → List Char → Bool
  | [], _ => true
  | _ :: _, [] => false
  | a :: as, b :: bs =>
    if a.toNat < b.toNat then true
    else if b.toNat < a.toNat then false
    else lexLe as bs

/-- Python string comparison: lexicographic by code point. -/
def strLe (a b : String) : Bool := lexLe a.data b.data

/-- The lines one source file contributes to the merge: `cachefile.exists()`
guards the read (`none` contributes nothing), and an existing file's content
is split into lines. -/
def sourceLines (f : Option String) : List String :=
  match f with
  | none => []
  | some c => splitlines c

/-- Function `merge_cachefiles`, as a function of the five source files'
states (`none` = the file does not exist and is skipped): concatenate the
lines of the existing files, apply `sorted(set(...))`, join with newlines.
The returned string is what is written to the merged file. -/
def merge_cachefiles (lkh kh osb nbv nbp : Option String) : String :=
  let files := [lkh, kh, osb, nbv, nbp]
  let merged_data := (files.map sourceLines).flatten
  String.intercalate "\n"
    (List.insertionSort (fun a b => strLe a b = true) merged_data.dedup)

/-- The cache directory as `merge_cachefiles` sees it: the five source
files it reads and the merged file it writes (`none` = missing). -/
structure CacheFS where
  local_known_hosts : Option String
  known_hosts : Option String
  openstackbrowser : Option String
  netbox_virtual : Option String
  netbox_physical : Option String
  merged : Option String
  deriving DecidableEq, Repr

/-- A run of `merge_cachefiles` as a filesystem transition: the merged file
is fully overwritten with the merge output; the sources are not touched. -/
def mergeCachefilesRun (fs : CacheFS) : CacheFS :=
  { fs with
    merged := some (merge_cachefiles fs.local_known_hosts fs.known_hosts
      fs.openstackbrowser fs.netbox_virtual fs.netbox_physical) }

/-- Python whitespace for `str.split(None)`, restricted to the ASCII
whitespace characters (known-hosts files are ASCII). -/
def isPySpace (c : Char) : Bool :=
  c == ' ' || c == '\t' || c == '\n' || c == '\x0b' || c == '\x0c' || c == '\r'

/-- First token of a line, `line.split(None, 1)[0]`: the first
whitespace-delimited token, or `none` when the line has no non-whitespace
character (in which case the Python expression raises `IndexError` on the
empty list). -/
def firstToken (line : String) : Option String :=
  let tok := (line.data.dropWhile isPySpace).takeWhile (fun c => !isPySpace c)
  if tok = [] then none else some (String.mk tok)

/-- The generator over the file's lines inside `get_local_known_hosts`,
fully consumed: the first token of every line, or `none` as soon as some
line has no token (the `IndexError`). -/
def tokensOfLines : List String → Option (List String)
  | [] => some []
  | l :: ls =>
    match firstToken l, tokensOfLines ls with
    | some t, some ts => some (t :: ts)
    | _, _ => none

/-- Function `get_local_known_hosts`: first token of every line of the file
(file iteration keeps trailing newlines, which `split` discards),
deduplicated via `set`.  A Python set iterates in an unspecified order, so
we return the deduplicated tokens in first-occurrence order rather than a
joined string; the error behavior is unaffected by the order. -/
def get_local_known_hosts (lines : List String) : Except PyErr (List String) :=
  match tokensOfLines lines with
  | none => .error .indexError
  | some toks => .ok toks.dedup

/-- A key `k` is bound to `v` in the cache-file state `c`: the file exists,
decodes, and its object maps `k` to `v`. -/
def cacheBinds (c : CacheSt) (k v : String) : Prop :=
  ∃ d, c = some (some d) ∧ alookup d k = some v

/-- A primary-IP endpoint always answering success with a non-empty
`dns_name`; used for concrete instantiations. -/
def ipNetOk : String → IpResponse :=
  fun _ => ⟨true, some [("dns_name", some "db1.eqiad.wmnet")]⟩

/-- A primary-IP endpoint whose response object has no `dns_name` field. -/
def ipNetNoDnsField : String → IpResponse :=
  fun _ => ⟨true, some [("address", some "10.0.0.1/24")]⟩

/-- A primary-IP endpoint whose response carries a null `dns_name`. -/
def ipNetNullDns : String → IpResponse :=
  fun _ => ⟨true, some [("dns_name", none)]⟩

/-- A paginated endpoint serving three pages linked by `next`, the third
page's `next` being null. -/
def pagesNet3 : String → PageResponse Nat := fun u =>
  if u = "p1" then ⟨true, some ⟨[1, 2], some "p2"⟩⟩
  else if u = "p2" then ⟨true, some ⟨[3], some "p3"⟩⟩
  else if u = "p3" then ⟨true, some ⟨[4, 5], none⟩⟩
  else ⟨false, none⟩

/-- A paginated endpoint always answering a non-success HTTP status with a
well-formed empty envelope. -/
def pagesNetBadStatus : String → PageResponse Nat :=
  fun _ => ⟨false, some ⟨[], none⟩⟩

/-- A paginated endpoint always answering a malformed JSON body. -/
def pagesNetMalformed : String → PageResponse Nat :=
  fun _ => ⟨true, none⟩

/-- A concrete device whose primary-IP URL is `u1`, with a cache file
configured. -/
def hostU1 : NetboxHost := ⟨"db1", "eqiad", true, some "u1", none⟩

/-- A concrete device without a primary-IP reference. -/
def hostNoIp : NetboxHost := ⟨"db1", "eqiad", true, none, none⟩

/-! ## Helper lemmas -/

theorem truthyOpt_none_eq : truthyOpt none = false := rfl

theorem alookup_cons {β : Type} (a : String × β) (d : List (String × β)) (k : String) :
    alookup (a :: d) k = if a.1 = k then some a.2 else alookup d k := by
  by_cases hak : a.1 = k
  · simp [alookup, List.find?, hak]
  · simp [alookup, List.find?, beq_eq_false_iff_ne.mpr hak, hak]

theorem alookup_append_single_ne {β : Type} (d : List (String × β)) (u : String) (w : β)
    (k : String) (hne : k ≠ u) : alookup (d ++ [(u, w)]) k = alookup d k := by
  induction d with
  | nil => simp [alookup, List.find?, beq_eq_false_iff_ne.mpr (Ne.symm hne)]
  | cons a d ih =>
    rw [List.cons_append, alookup_cons, alookup_cons, ih]

theorem alookup_overwrite_ne (d : CacheData) (u : String) (w : String) (k : String)
    (hne : k ≠ u) :
    alookup (d.map (fun p => if p.1 == u then (p.1, w) else p)) k = alookup d k := by
  induction d with
  | nil => simp [alookup]
  | cons a d ih =>
    simp only [beq_iff_eq] at ih
    rw [List.map_cons, alookup_cons, alookup_cons]
    by_cases hau : (a.1 == u) = true
    · have hau2 : a.1 = u := beq_iff_eq.mp hau
      have hak : a.1 ≠ k := fun hk => hne (hk ▸ hau2)
      simp [hau, hak, ih]
    · simp [hau, ih]

theorem insertKV_cons_ne (a : String × String) (d : CacheData) (u w : String)
    (hau : a.1 ≠ u) : insertKV (a :: d) u w = a :: insertKV d u w := by
  have hbe : (a.1 == u) = false := beq_eq_false_iff_ne.mpr hau
  simp only [insertKV, List.find?_cons, hbe]
  split <;> simp [hbe, hau]

theorem alookup_insertKV_ne (d : CacheData) (u : String) (w : String) (k : String)
    (hne : k ≠ u) : alookup (insertKV d u w) k = alookup d k := by
  unfold insertKV
  split
  · exact alookup_overwrite_ne d u w k hne
  · exact alookup_append_single_ne d u w k hne

theorem alookup_insertKV_self (d : CacheData) (u w : String) :
    alookup (insertKV d u w) u = some w := by
  induction d with
  | nil => simp [insertKV, alookup, List.find?]
  | cons a d ih =>
    by_cases hau : a.1 = u
    · have hbe : (a.1 == u) = true := beq_iff_eq.mpr hau
      simp only [insertKV, List.find?_cons, hbe, List.find?, Option.isSome_some, if_true,
        List.map_cons, ite_true]
      rw [alookup_cons]
      simp [hau]
    · rw [insertKV_cons_ne a d u w hau, alookup_cons]
      simp [hau, ih]

theorem getFqdnFromApi_cache_evolution (net : String → IpResponse) (h : NetboxHost)
    (c : CacheSt) (h2 : NetboxHost) (c2 : CacheSt) (tr : List String)
    (hrun : getFqdnFromApi net h c = .ok (h2, c2, tr)) :
    c2 = c ∨
    ∃ dec w, c = some dec ∧ h.cachefile = true ∧
      c2 = some (some (insertKV (dec.getD []) (h.primary_ip_url.getD "") w)) := by
  by_cases hst : (net (h.primary_ip_url.getD "")).statusOk = false
  · simp [getFqdnFromApi, hst] at hrun
  · rcases hbody : (net (h.primary_ip_url.getD "")).body with _ | fields
    · simp [getFqdnFromApi, hst, hbody] at hrun
    · rcases hdns : alookup fields "dns_name" with _ | dnsVal
      · simp [getFqdnFromApi, hst, hbody, hdns] at hrun
      · by_cases htr : truthyOpt dnsVal = true
        · by_cases hcf : h.cachefile = true
          · rcases hc : c with _ | dec
            · simp [getFqdnFromApi, writeFqdnToCache, hst, hbody, hdns, htr, hcf, hc] at hrun
            · simp [getFqdnFromApi, writeFqdnToCache, hst, hbody, hdns, htr, hcf, hc] at hrun
              right
              exact ⟨dec, dnsVal.getD "", rfl, hcf, hrun.2.1.symm⟩
          · simp [getFqdnFromApi, hst, hbody, hdns, htr, hcf] at hrun
            exact Or.inl hrun.2.1.symm
        · simp [getFqdnFromApi, hst, hbody, hdns, htr] at hrun
          exact Or.inl hrun.2.1.symm

theorem get_fqdn_cache_evolution (net : String → IpResponse) (h : NetboxHost)
    (c : CacheSt) (h2 : NetboxHost) (c2 : CacheSt) (tr : List String)
    (hrun : get_fqdn net h c = .ok (h2, c2, tr)) :
    c2 = c ∨
    ∃ dec u w, c = some dec ∧ h.cachefile = true ∧ h.primary_ip_url = some u ∧
      truthyOpt (alookup (dec.getD []) u) = false ∧
      c2 = some (some (insertKV (dec.getD []) u w)) := by
  by_cases hip : truthyOpt h.primary_ip_url = false
  · simp [get_fqdn, hip] at hrun
    exact Or.inl hrun.2.1.symm
  · rcases hpu : h.primary_ip_url with _ | u
    · rw [hpu] at hip
      simp [truthyOpt] at hip
    · rw [hpu] at hip
      have hut : truthyOpt (some u) = true := by
        cases hb : truthyOpt (some u) with
        | false => exact absurd hb hip
        | true => rfl
      by_cases hcf : h.cachefile = true
      · rcases hc : c with _ | dec
        · simp [get_fqdn, hip, hcf, hc, hut, hpu, getFqdnFromCache] at hrun
        · by_cases htr : truthyOpt (alookup (dec.getD []) u) = true
          · simp [get_fqdn, hip, hcf, hc, hut, getFqdnFromCache, hpu, htr] at hrun
            exact Or.inl hrun.2.1.symm
          · simp [get_fqdn, hip, hcf, hc, hut, getFqdnFromCache, hpu, htr] at hrun
            rcases getFqdnFromApi_cache_evolution net _ _ _ _ _ hrun with
              hcc | ⟨dec2, w, hcdec, _, hc2⟩
            · exact Or.inl hcc
            · rcases Option.some.inj hcdec with rfl
              right
              refine ⟨dec, u, w, rfl, hcf, rfl, by simpa using htr, ?_⟩
              simpa using hc2
      · by_cases htr : truthyOpt h.dns_name = true
        · simp [get_fqdn, hip, hcf, hut, hpu, htr] at hrun
          exact Or.inl hrun.2.1.symm
        · simp [get_fqdn, hip, hcf, hut, hpu, htr] at hrun
          rcases getFqdnFromApi_cache_evolution net _ _ _ _ _ hrun with
            hcc | ⟨dec2, w, hcdec, hcf2, hc2⟩
          · exact Or.inl hcc
          · exact absurd hcf2 (by simpa using hcf)

theorem get_fqdn_preserves_binding (net : String → IpResponse) (h : NetboxHost)
    (c : CacheSt) (h2 : NetboxHost) (c2 : CacheSt) (tr : List String) (k v : String)
    (hrun : get_fqdn net h c = .ok (h2, c2, tr)) (hv : v ≠ "")
    (hb : cacheBinds c k v) : cacheBinds c2 k v := by
  rcases get_fqdn_cache_evolution net h c h2 c2 tr hrun with
    rfl | ⟨dec, u, w, hcdec, _, _, hfal, hc2⟩
  · exact hb
  · rcases hb with ⟨d, hcd, hlk⟩
    rcases Option.some.inj (hcdec.symm.trans hcd) with rfl
    have hku : k ≠ u := by
      intro hk
      rw [hk] at hlk
      rw [Option.getD_some, hlk] at hfal
      simp [truthyOpt] at hfal
      exact hv hfal
    refine ⟨insertKV d u w, by simpa using hc2, ?_⟩
    rw [alookup_insertKV_ne d u w k hku]
    exact hlk

theorem processDevice_preserves_binding (net : String → IpResponse) (cf : Bool)
    (r : NBRecord) (c : CacheSt) (line : Option String) (c2 : CacheSt) (k v : String)
    (hrun : processDevice net cf r c = .ok (line, c2)) (hv : v ≠ "")
    (hb : cacheBinds c k v) : cacheBinds c2 k v := by
  simp only [processDevice] at hrun
  rcases hg : get_fqdn net
      { name := r.name, slug := r.slug, cachefile := cf,
        primary_ip_url := r.primary_ip, dns_name := none } c with e | ⟨d, c3, tr⟩
  · simp only [hg] at hrun
    exact Except.noConfusion hrun
  · simp only [hg, Except.ok.injEq] at hrun
    have hc3 : c3 = c2 := by
      rcases hrun with hrun
      split at hrun
      · exact (Prod.mk.injEq _ _ _ _ ▸ hrun).2
      · exact (Prod.mk.injEq _ _ _ _ ▸ hrun).2
    exact hc3 ▸ get_fqdn_preserves_binding net _ c d c3 tr k v hg hv hb

theorem getNetboxHostsLoop_preserves_binding (net : String → IpResponse) (cf : Bool) :
    ∀ (rs : List NBRecord) (c : CacheSt) (out : List String × CacheSt) (k v : String),
      getNetboxHostsLoop net cf rs c = .ok out → v ≠ "" →
      cacheBinds c k v → cacheBinds out.2 k v := by
  intro rs
  induction rs with
  | nil =>
    intro c out k v hrun hv hb
    simp [getNetboxHostsLoop] at hrun
    rw [← hrun]
    exact hb
  | cons r rs ih =>
    intro c out k v hrun hv hb
    unfold getNetboxHostsLoop at hrun
    rcases hp : processDevice net cf r c with e | ⟨line, c2⟩
    · simp only [hp] at hrun
      exact Except.noConfusion hrun
    · simp only [hp] at hrun
      rcases hl : getNetboxHostsLoop net cf rs c2 with e | ⟨hosts, c3⟩
      · simp only [hl] at hrun
        exact Except.noConfusion hrun
      · simp only [hl, Except.ok.injEq] at hrun
        have hb2 := processDevice_preserves_binding net cf r c line c2 k v hp hv hb
        have hb3 := ih c2 (hosts, c3) k v hl hv hb2
        rw [← hrun]
        exact hb3

theorem fetchAllResults_error_shape {α : Type} (net : String → PageResponse α) :
    ∀ (fuel : Nat) (url : Option String) (tr : List String) (e : PyErr),
    fetchAllResults net fuel url = some (tr, .error e) →
    e = .jsonDecodeError ∧ ∃ tr2 u, tr = tr2 ++ [u] ∧ (net u).body = none ∧
      (∀ w ∈ tr2, (net w).body ≠ none) ∧ tr.count u = 1 := by
  intro fuel
  induction fuel with
  | zero =>
    intro url tr e h
    exact Option.noConfusion h
  | succ f ih =>
    intro url tr e h
    by_cases hto : truthyOpt url = false
    · simp [fetchAllResults, hto] at h
    · rcases hb : (net (url.getD "")).body with _ | b
      · simp [fetchAllResults, hto, hb] at h
        obtain ⟨h1, h2⟩ := h
        subst h1
        subst h2
        refine ⟨rfl, [], url.getD "", rfl, hb, by simp, by simp⟩
      · rcases hrec : fetchAllResults net f b.nextUrl with _ | ⟨tr2, r2⟩
        · simp [fetchAllResults, hto, hb, hrec] at h
        · rcases r2 with e2 | rs
          · simp [fetchAllResults, hto, hb, hrec] at h
            obtain ⟨h1, h2⟩ := h
            subst h1
            subst h2
            obtain ⟨he2, tr3, u2, htr2, hu2, hgood, hcnt⟩ := ih b.nextUrl tr2 e2 hrec
            subst he2
            subst htr2
            refine ⟨rfl, (url.getD "") :: tr3, u2, rfl, hu2, ?_, ?_⟩
            · intro w hw
              rcases List.mem_cons.mp hw with rfl | hw2
              · simp [hb]
              · exact hgood w hw2
            · have hne : u2 ≠ url.getD "" := by
                intro hq
                rw [hq, hb] at hu2
                exact Option.noConfusion hu2
              have hnotmem : u2 ∉ tr3 := fun hm => (hgood u2 hm) hu2
              simp [List.count_cons, List.count_append, hne, hnotmem]
              exact List.count_eq_zero.mpr hnotmem
          · simp [fetchAllResults, hto, hb, hrec] at h

theorem fetchAllResults_malformed_fails {α : Type} (net : String → PageResponse α)
    (u : String) (us : List String) (hch : BadPageChain net u us) :
    ∀ fuel : Nat, us.length < fuel →
    fetchAllResults net fuel (some u) = some (us, .error .jsonDecodeError) := by
  induction hch with
  | last u hu hb =>
    intro fuel hf
    obtain ⟨f, rfl⟩ : ∃ f, fuel = f + 1 := ⟨fuel - 1, by omega⟩
    have htu : truthyOpt (some u) = true := by simp [truthyOpt, hu]
    simp [fetchAllResults, htu, hb]
  | cons u u2 b us hu hb hnx hu2 hch2 ih =>
    intro fuel hf
    obtain ⟨f, rfl⟩ : ∃ f, fuel = f + 1 := ⟨fuel - 1, by omega⟩
    have htu : truthyOpt (some u) = true := by simp [truthyOpt, hu]
    have hrec := ih f (by simp at hf; omega)
    simp [fetchAllResults, htu, hb, hnx, hrec]

theorem lexLe_total : ∀ as bs : List Char, lexLe as bs = true ∨ lexLe bs as = true
  | [], _ => Or.inl rfl
  | _ :: _, [] => Or.inr rfl
  | a :: as, b :: bs => by
    by_cases h1 : a.toNat < b.toNat
    · left
      simp [lexLe, h1]
    · by_cases h2 : b.toNat < a.toNat
      · right
        simp [lexLe, h2]
      · rcases lexLe_total as bs with h | h
        · left
          simp only [lexLe, if_neg h1, if_neg h2]
          exact h
        · right
          simp only [lexLe, if_neg h2, if_neg h1]
          exact h

theorem lexLe_trans : ∀ as bs cs : List Char,
    lexLe as bs = true → lexLe bs cs = true → lexLe as cs = true
  | [], _, _, _, _ => rfl
  | _ :: _, [], _, h1, _ => by simp [lexLe] at h1
  | _ :: _, _ :: _, [], _, h2 => by simp [lexLe] at h2
  | a :: as, b :: bs, c :: cs, h1, h2 => by
    simp only [lexLe] at h1 h2 ⊢
    by_cases hab : a.toNat < b.toNat
    · by_cases hbc : b.toNat < c.toNat
      · rw [if_pos (by omega : a.toNat < c.toNat)]
      · by_cases hcb : c.toNat < b.toNat
        · rw [if_neg hbc, if_pos hcb] at h2
          exact Bool.noConfusion h2
        · rw [if_pos (by omega : a.toNat < c.toNat)]
    · by_cases hba : b.toNat < a.toNat
      · rw [if_neg hab, if_pos hba] at h1
        exact Bool.noConfusion h1
      · rw [if_neg hab, if_neg hba] at h1
        by_cases hbc : b.toNat < c.toNat
        · rw [if_pos (by omega : a.toNat < c.toNat)]
        · by_cases hcb : c.toNat < b.toNat
          · rw [if_neg hbc, if_pos hcb] at h2
            exact Bool.noConfusion h2
          · rw [if_neg hbc, if_neg hcb] at h2
            rw [if_neg (by omega : ¬a.toNat < c.toNat),
              if_neg (by omega : ¬c.toNat < a.toNat)]
            exact lexLe_trans as bs cs h1 h2

instance : IsTotal String (fun a b => strLe a b = true) :=
  ⟨fun a b => lexLe_total a.data b.data⟩

instance : IsTrans String (fun a b => strLe a b = true) :=
  ⟨fun a b c => lexLe_trans a.data b.data c.data⟩

theorem dropTake_nil_iff : ∀ cs : List Char,
    ((cs.dropWhile isPySpace).takeWhile (fun c => !isPySpace c) = []) ↔
      cs.all isPySpace = true := by
  intro cs
  induction cs with
  | nil => simp
  | cons c cs ih =>
    by_cases hc : isPySpace c = true
    · simp [List.dropWhile_cons, hc, List.all_cons, ih]
    · simp [List.dropWhile_cons, hc, List.takeWhile_cons, List.all_cons]

theorem firstToken_eq_none_iff (l : String) :
    firstToken l = none ↔ l.data.all isPySpace = true := by
  rw [← dropTake_nil_iff]
  by_cases h : ((l.data.dropWhile isPySpace).takeWhile (fun c => !isPySpace c) = []) <;>
    simp [firstToken, h]

theorem tokensOfLines_eq_none_iff : ∀ ls : List String,
    tokensOfLines ls = none ↔ ∃ l ∈ ls, firstToken l = none := by
  intro ls
  induction ls with
  | nil => simp [tokensOfLines]
  | cons l ls ih =>
    rcases hf : firstToken l with _ | t
    · simp only [tokensOfLines, hf]
      constructor
      · intro _
        exact ⟨l, List.mem_cons_self l ls, hf⟩
      · intro _
        trivial
    · rcases ht : tokensOfLines ls with _ | ts
      · simp only [tokensOfLines, hf, ht]
        constructor
        · intro _
          rcases ih.mp ht with ⟨x, hx, hxn⟩
          exact ⟨x, List.mem_cons_of_mem _ hx, hxn⟩
        · intro _
          trivial
      · simp only [tokensOfLines, hf, ht]
        constructor
        · intro hcon
          exact Option.noConfusion hcon
        · rintro ⟨x, hx, hxn⟩
          rcases List.mem_cons.mp hx with rfl | hx2
          · rw [hf] at hxn
            exact Option.noConfusion hxn
          · have hcon := ih.mpr ⟨x, hx2, hxn⟩
            rw [ht] at hcon
            exact Option.noConfusion hcon

/-! ## Claim theorems -/

/-- C1: cache read-through.  For a device with a configured cache file and a
truthy primary-IP URL that the decoded cache maps to a non-empty value,
`get_fqdn` returns exactly the cached value as the device's DNS name, makes
no network request (the request trace is empty), and returns the cache state
unchanged.  Moreover, over any run of the device-list loop, a key bound to a
non-empty value in the cache is never overwritten: it is still bound to the
same value in the final cache state. -/
theorem cache_read_through (net : String → IpResponse) (h : NetboxHost)
    (data : CacheData) (u v : String)
    (hcf : h.cachefile = true) (hu : h.primary_ip_url = some u) (hut : u ≠ "")
    (hl : alookup data u = some v) (hv : v ≠ "") :
    get_fqdn net h (some (some data)) =
      .ok ({ h with dns_name := some v }, some (some data), []) ∧
    (∀ (cf : Bool) (rs : List NBRecord) (c : CacheSt) (out : List String × CacheSt)
      (k w : String), getNetboxHostsLoop net cf rs c = .ok out → w ≠ "" →
      cacheBinds c k w → cacheBinds out.2 k w) := by
  constructor
  · simp [get_fqdn, getFqdnFromCache, hcf, hu, hut, hl, truthyOpt, hv]
  · exact fun cf rs c out k w hrun hw hb =>
      getNetboxHostsLoop_preserves_binding net cf rs c out k w hrun hw hb

/-- Witness for C1 at a concrete device and cache. -/
theorem cache_read_through_witness :
    get_fqdn ipNetOk hostU1 (some (some [("u1", "cached.eqiad.wmnet")])) =
      .ok ({ hostU1 with dns_name := some "cached.eqiad.wmnet" },
        some (some [("u1", "cached.eqiad.wmnet")]), []) :=
  (cache_read_through ipNetOk hostU1 [("u1", "cached.eqiad.wmnet")] "u1"
    "cached.eqiad.wmnet" rfl rfl (by decide) rfl (by decide)).1

/-- C2: cache write-through with frame.  For a device with a configured
cache file whose truthy primary-IP URL is absent from the (existing) cache
file, when the API answers success with a non-empty `dns_name`, `get_fqdn`
returns that name, and the resulting cache state is the old object with the
single new key inserted: the new key maps to the new name, and every
key-value pair of the old object is still present unchanged. -/
theorem cache_write_through (net : String → IpResponse) (h : NetboxHost)
    (c : Option CacheData) (u d : String) (fields : List (String × Option String))
    (hcf : h.cachefile = true) (hu : h.primary_ip_url = some u) (hut : u ≠ "")
    (habs : alookup (c.getD []) u = none)
    (hst : (net u).statusOk = true) (hbody : (net u).body = some fields)
    (hf : alookup fields "dns_name" = some (some d)) (hd : d ≠ "") :
    ∃ h2, get_fqdn net h (some c) =
        .ok (h2, some (some (insertKV (c.getD []) u d)), [u]) ∧
      h2.dns_name = some d ∧
      alookup (insertKV (c.getD []) u d) u = some d ∧
      (∀ k w, alookup (c.getD []) k = some w →
        alookup (insertKV (c.getD []) u d) k = some w) := by
  refine ⟨{ h with dns_name := some d }, ?_, rfl, alookup_insertKV_self _ u d, ?_⟩
  · simp [get_fqdn, getFqdnFromCache, getFqdnFromApi, writeFqdnToCache,
      hcf, hu, hut, habs, hst, hbody, hf, truthyOpt, hd]
  · intro k w hw
    have hk : k ≠ u := by
      intro hk
      rw [hk, habs] at hw
      exact Option.noConfusion hw
    rw [alookup_insertKV_ne _ u d k hk]
    exact hw

/-- Witness for C2 at a concrete device, cache and endpoint. -/
theorem cache_write_through_witness :
    ∃ h2, get_fqdn ipNetOk hostU1 (some (some [("k0", "v0")])) =
        .ok (h2, some (some [("k0", "v0"), ("u1", "db1.eqiad.wmnet")]), ["u1"]) ∧
      h2.dns_name = some "db1.eqiad.wmnet" := by
  obtain ⟨h2, heq, hdns, _, _⟩ :=
    cache_write_through ipNetOk hostU1 (some [("k0", "v0")]) "u1" "db1.eqiad.wmnet"
      [("dns_name", some "db1.eqiad.wmnet")] rfl rfl (by decide) rfl rfl rfl rfl (by decide)
  exact ⟨h2, heq, hdns⟩

/-- C3, counterexample: the paginated fetcher does not fail on a non-success
HTTP status.  Against an endpoint that always answers a non-success status
with a well-formed empty envelope, `fetch_all_results` succeeds, returning
the empty result list, so the claim that it propagates an error on any
non-success status is false on the code (the status is never checked). -/
theorem fetch_ok_despite_bad_status_cex :
    (pagesNetBadStatus "u0").statusOk = false ∧
    fetchAllResults pagesNetBadStatus 2 (some "u0") = some (["u0"], .ok []) :=
  ⟨rfl, rfl⟩

/-- C3, amended: whenever the paginated fetcher fails, the failure is a JSON
decode error; the trace ends at the malformed page, every earlier page was
well-formed, and the failing URL was requested exactly once (no retry).
Conversely, a chain of well-formed pages ending at a page with a malformed
body makes the fetcher fail with a JSON decode error after requesting
exactly those pages.  A non-success HTTP status alone never causes a
failure, as the status is never consulted. -/
theorem fetchAllResults_failure_modes {α : Type} (net : String → PageResponse α) :
    (∀ (fuel : Nat) (url : Option String) (tr : List String) (e : PyErr),
      fetchAllResults net fuel url = some (tr, .error e) →
      e = .jsonDecodeError ∧ ∃ tr2 u, tr = tr2 ++ [u] ∧ (net u).body = none ∧
        (∀ w ∈ tr2, (net w).body ≠ none) ∧ tr.count u = 1) ∧
    (∀ (u : String) (us : List String) (fuel : Nat), BadPageChain net u us →
      us.length < fuel →
      fetchAllResults net fuel (some u) = some (us, .error .jsonDecodeError)) :=
  ⟨fetchAllResults_error_shape net,
   fun u us fuel hch hf => fetchAllResults_malformed_fails net u us hch fuel hf⟩

/-- Witness for the amended C3 at a concrete malformed endpoint. -/
theorem fetchAllResults_failure_modes_witness :
    fetchAllResults pagesNetMalformed 2 (some "u0") =
      some (["u0"], .error .jsonDecodeError) :=
  (fetchAllResults_failure_modes pagesNetMalformed).2 "u0" ["u0"] 2
    (BadPageChain.last "u0" (by decide) rfl) (by decide)

/-- C4, counterexample: a primary-IP response whose object has no `dns_name`
field does not resolve without error; `ip_info["dns_name"]` raises a
KeyError, which `get_fqdn` propagates. -/
theorem absent_dns_name_raises_cex :
    alookup [("address", some "10.0.0.1/24")] "dns_name" = none ∧
    get_fqdn ipNetNoDnsField hostU1 (some (some [])) = .error (.keyError "dns_name") :=
  ⟨rfl, rfl⟩

/-- C4, amended: for a device whose resolution reaches the API (no cache
configured, or an existing cache file without a truthy value for its URL),
a success response whose `dns_name` field is present but null or empty
resolves without error, the device contributes no line to the device-list
builder's output, and the cache state is unchanged (nothing is written). -/
theorem null_or_empty_dns_excluded (ipNet : String → IpResponse) (cf : Bool)
    (r : NBRecord) (c : CacheSt) (u : String) (fields : List (String × Option String))
    (dv : Option String)
    (hu : r.primary_ip = some u) (hut : u ≠ "")
    (hreach : cf = false ∨ ∃ dec, c = some dec ∧ truthyOpt (alookup (dec.getD []) u) = false)
    (hst : (ipNet u).statusOk = true) (hbody : (ipNet u).body = some fields)
    (hdv : alookup fields "dns_name" = some dv) (hfal : truthyOpt dv = false) :
    processDevice ipNet cf r c = .ok (none, c) ∧
    ∀ rs, getNetboxHostsLoop ipNet cf (r :: rs) c = getNetboxHostsLoop ipNet cf rs c := by
  have htu : truthyOpt (some u) = true := by simp [truthyOpt, hut]
  have hpd : processDevice ipNet cf r c = .ok (none, c) := by
    by_cases hcf : cf = true
    · rcases hreach with hcf2 | ⟨dec, rfl, hfal2⟩
      · rw [hcf] at hcf2
        exact Bool.noConfusion hcf2
      · simp [processDevice, get_fqdn, getFqdnFromCache, getFqdnFromApi, htu, hu, hcf, hst,
          hbody, hdv, hfal, hfal2, truthyOpt_none_eq]
    · simp [processDevice, get_fqdn, getFqdnFromApi, htu, hu, hcf, hst, hbody, hdv, hfal,
        truthyOpt_none_eq]
  refine ⟨hpd, fun rs => ?_⟩
  rcases hl : getNetboxHostsLoop ipNet cf rs c with e | out
  · simp [getNetboxHostsLoop, hpd, hl]
  · simp [getNetboxHostsLoop, hpd, hl]

/-- Witness for the amended C4 at a concrete device and endpoint. -/
theorem null_or_empty_dns_excluded_witness :
    processDevice ipNetNullDns true ⟨"db1", "eqiad", some "u1"⟩ (some (some [])) =
      .ok (none, some (some [])) :=
  (null_or_empty_dns_excluded ipNetNullDns true ⟨"db1", "eqiad", some "u1"⟩
    (some (some [])) "u1" [("dns_name", none)] none rfl (by decide)
    (Or.inr ⟨some [], rfl, rfl⟩) rfl rfl rfl rfl).1

/-- C5: pagination.  Along any terminating chain of pages (each well-formed,
each linking to the next, the last one with a null or empty `next`), the
paginated fetcher requests exactly the chain's URLs in order and returns the
concatenation of all pages' `results` arrays in page order. -/
theorem fetchAllResults_paginates {α : Type} (net : String → PageResponse α)
    (u : String) (us : List String) (hch : PageChain net u us) :
    ∀ fuel : Nat, us.length < fuel →
    fetchAllResults net fuel (some u) = some (us, .ok (us.flatMap (pageResults net))) := by
  induction hch with
  | last u b hu hb hnx =>
    intro fuel hf
    obtain ⟨f, rfl⟩ : ∃ f, fuel = f + 2 := ⟨fuel - 2, by simp at hf; omega⟩
    have htu : truthyOpt (some u) = true := by simp [truthyOpt, hu]
    simp [fetchAllResults, htu, hb, hnx, pageResults]
  | cons u u2 b us hu hb hnx hu2 hch2 ih =>
    intro fuel hf
    obtain ⟨f, rfl⟩ : ∃ f, fuel = f + 1 := ⟨fuel - 1, by omega⟩
    have htu : truthyOpt (some u) = true := by simp [truthyOpt, hu]
    have hrec := ih f (by simp at hf; omega)
    simp [fetchAllResults, htu, hb, hnx, hrec, pageResults]

/-- Witness for C5: three concrete pages linked by `next`, the third one
final; the fetcher returns the three `results` arrays concatenated. -/
theorem fetchAllResults_paginates_witness :
    fetchAllResults pagesNet3 4 (some "p1") =
      some (["p1", "p2", "p3"], .ok [1, 2, 3, 4, 5]) :=
  fetchAllResults_paginates pagesNet3 "p1" ["p1", "p2", "p3"]
    (PageChain.cons "p1" "p2" ⟨[1, 2], some "p2"⟩ _ (by decide) rfl rfl (by decide)
      (PageChain.cons "p2" "p3" ⟨[3], some "p3"⟩ _ (by decide) rfl rfl (by decide)
        (PageChain.last "p3" ⟨[4, 5], none⟩ (by decide) rfl rfl)))
    4 (by decide)

/-- C6: for a device whose primary-IP reference is falsy, `get_fqdn` sets
the DNS name to exactly the device name, a dot, the site slug, a dot and
`wmnet`, for every cache-file state (including a missing file, which a cache
access would turn into an error) and with an empty network request trace:
no cache and no network access happen. -/
theorem no_primary_ip_synthesizes (net : String → IpResponse) (h : NetboxHost)
    (cache : CacheSt) (hip : truthyOpt h.primary_ip_url = false) :
    get_fqdn net h cache =
      .ok ({ h with dns_name := some (h.name ++ "." ++ h.slug ++ ".wmnet") }, cache, []) := by
  simp [get_fqdn, hip]

/-- Witness for C6 at a concrete device with no primary-IP reference. -/
theorem no_primary_ip_synthesizes_witness :
    get_fqdn ipNetOk hostNoIp none =
      .ok (⟨"db1", "eqiad", true, none, some "db1.eqiad.wmnet"⟩, none, []) := by
  have h := no_primary_ip_synthesizes ipNetOk hostNoIp none rfl
  simpa using h

/-- C7: merge correctness.  For every state of the five source files, the
merger's output is the newline join of a list that is sorted (lexicographic
by code point), duplicate-free, and contains exactly the lines of the
existing source files (missing files contribute nothing); in particular,
for sources containing lines b,a and a,c and no other files present, the
output is exactly the three lines a, b, c joined by newlines. -/
theorem merge_cachefiles_correct (lkh kh osb nbv nbp : Option String) :
    (∃ L : List String,
      merge_cachefiles lkh kh osb nbv nbp = String.intercalate "\n" L ∧
      List.Sorted (fun a b => strLe a b = true) L ∧ L.Nodup ∧
      (∀ s, s ∈ L ↔ ∃ f ∈ [lkh, kh, osb, nbv, nbp], ∃ c, f = some c ∧ s ∈ splitlines c)) ∧
    merge_cachefiles (some "b\na") (some "a\nc") none none none = "a\nb\nc" := by
  constructor
  · refine ⟨List.insertionSort (fun a b => strLe a b = true)
      ((([lkh, kh, osb, nbv, nbp].map sourceLines).flatten).dedup),
      rfl, List.sorted_insertionSort _ _,
      ((List.perm_insertionSort _ _).nodup_iff).mpr (List.nodup_dedup _), ?_⟩
    intro s
    rw [List.mem_insertionSort, List.mem_dedup, List.mem_flatten]
    constructor
    · rintro ⟨l, hl, hsl⟩
      rcases List.mem_map.mp hl with ⟨f, hf, rfl⟩
      rcases f with _ | c
      · simp [sourceLines] at hsl
      · exact ⟨some c, hf, c, rfl, hsl⟩
    · rintro ⟨f, hf, c, rfl, hs⟩
      exact ⟨sourceLines (some c), List.mem_map.mpr ⟨some c, hf, rfl⟩, hs⟩
  · rfl

/-- Witness for C7: the concrete two-source merge. -/
theorem merge_cachefiles_correct_witness :
    merge_cachefiles (some "b\na") (some "a\nc") none none none = "a\nb\nc" :=
  (merge_cachefiles_correct none none none none none).2

/-- C8: merge idempotence.  Running the merger twice without changing the
source files yields a byte-identical merged file; indeed the whole
filesystem transition is idempotent, because the merger reads only the five
source files and fully overwrites the merged file. -/
theorem merge_cachefiles_idempotent (fs : CacheFS) :
    (mergeCachefilesRun (mergeCachefilesRun fs)).merged = (mergeCachefilesRun fs).merged ∧
    mergeCachefilesRun (mergeCachefilesRun fs) = mergeCachefilesRun fs := by
  constructor <;> rfl

/-- Witness for C8 at a concrete filesystem state. -/
theorem merge_cachefiles_idempotent_witness :
    (mergeCachefilesRun (mergeCachefilesRun ⟨some "a", none, none, none, none, none⟩)).merged =
      (mergeCachefilesRun (⟨some "a", none, none, none, none, none⟩ : CacheFS)).merged :=
  (merge_cachefiles_idempotent ⟨some "a", none, none, none, none, none⟩).1

/-- C9: for a device with a configured cache file and a truthy primary-IP
URL, a missing cache file makes `get_fqdn` fail with a file-not-found error
(read mode requires the file), the write-back alone also fails on a missing
file (read-update mode requires the file), while a corrupt (undecodable)
cache file is treated exactly like one containing the empty object. -/
theorem missing_cachefile_raises (net : String → IpResponse) (h : NetboxHost)
    (hcf : h.cachefile = true) (hip : truthyOpt h.primary_ip_url = true) :
    get_fqdn net h none = .error .fileNotFound ∧
    writeFqdnToCache h none = .error .fileNotFound ∧
    getFqdnFromCache h (some none) = getFqdnFromCache h (some (some [])) := by
  refine ⟨?_, rfl, rfl⟩
  simp [get_fqdn, hip, hcf, getFqdnFromCache]

/-- Witness for C9 at a concrete device. -/
theorem missing_cachefile_raises_witness :
    get_fqdn ipNetOk hostU1 none = .error .fileNotFound ∧
    writeFqdnToCache hostU1 none = .error .fileNotFound ∧
    getFqdnFromCache hostU1 (some none) = getFqdnFromCache hostU1 (some (some [])) :=
  missing_cachefile_raises ipNetOk hostU1 rfl rfl

/-- C10: `get_local_known_hosts` fails (with the IndexError of indexing an
empty split result) exactly when some line of the file consists entirely of
whitespace, and in particular it fails on a concrete file containing a
well-formed line followed by an empty line. -/
theorem get_local_known_hosts_error_iff (lines : List String) :
    (get_local_known_hosts lines = .error .indexError ↔
      ∃ l ∈ lines, l.data.all isPySpace = true) ∧
    get_local_known_hosts ["hostA ssh-rsa AAAA", "\n"] = .error .indexError := by
  constructor
  · rcases ht : tokensOfLines lines with _ | ts
    · simp only [get_local_known_hosts, ht]
      constructor
      · intro _
        rcases (tokensOfLines_eq_none_iff lines).mp ht with ⟨l, hl, hn⟩
        exact ⟨l, hl, (firstToken_eq_none_iff l).mp hn⟩
      · intro _
        trivial
    · simp only [get_local_known_hosts, ht]
      constructor
      · intro hcon
        exact Except.noConfusion hcon
      · rintro ⟨l, hl, hws⟩
        have hcon := (tokensOfLines_eq_none_iff lines).mpr
          ⟨l, hl, (firstToken_eq_none_iff l).mpr hws⟩
        rw [ht] at hcon
        exact Option.noConfusion hcon
  · rfl

/-- Witness for C10: the concrete failing file, via the theorem. -/
theorem get_local_known_hosts_error_iff_witness :
    get_local_known_hosts ["hostA ssh-rsa AAAA", "\n"] = .error .indexError :=
  (get_local_known_hosts_error_iff []).2

end Lazyhost
